import Mathlib

/-!
Verification of the `yo` coding-assistant core against its specification.

The Rust sources are shallowly embedded: strings are lists of characters,
`serde_json::Value` is an inductive `Json`, filesystem effects (path
canonicalisation, file reads, stdin) are passed in explicitly as oracles,
and every embedded function mirrors the control flow of the source
function it is named after (`src/policy.rs`, `src/tool_filter.rs`,
`src/subagent.rs`, `src/tools/mod.rs`, `src/tools/edit.rs`, `src/plan.rs`).
-/

/-- Rust `&str` / `String`, modelled as a list of characters. -/
abbrev Str := List Char

/-- Rust `str::trim`: drop whitespace at both ends. -/
def strTrim (s : Str) : Str :=
  ((s.dropWhile Char.isWhitespace).reverse.dropWhile Char.isWhitespace).reverse

/-- Rust `str::to_lowercase` (ASCII-adequate model). -/
def strToLower (s : Str) : Str := s.map Char.toLower

/-- Rust `str::find(char)`: index of the first occurrence of a character. -/
def strFindIdx (c : Char) (s : Str) : Option Nat := s.findIdx? (· == c)

/-- Rust `str::rfind(char)`: index of the last occurrence of a character. -/
def strRfindIdx (c : Char) (s : Str) : Option Nat :=
  (s.reverse.findIdx? (· == c)).map (fun i => s.length - 1 - i)

/-- Rust `str::strip_suffix`. -/
def stripSuf (s suf : Str) : Option Str :=
  if suf.isSuffixOf s then some (s.take (s.length - suf.length)) else none

/-- Rust `str::strip_prefix`. -/
def stripPre (s pre : Str) : Option Str :=
  if pre.isPrefixOf s then some (s.drop pre.length) else none

/-- Rust `str::find(&str)`: byte index of the first occurrence of a
substring (here: character index, adequate for this codebase). -/
def findSub (hay needle : Str) : Option Nat :=
  match hay with
  | [] => if needle.isEmpty then some 0 else none
  | _ :: t => if needle.isPrefixOf hay then some 0 else (findSub t needle).map (· + 1)

/-- Model of `serde_json::Value`, restricted to the shapes this codebase consumes
(numbers are modelled as integers: the code only uses `as_i64`). -/
inductive Json where
  | null
  | bool (b : Bool)
  | num (n : Int)
  | str (s : Str)
  | arr (xs : List Json)
  | obj (kvs : List (String × Json))

/-- Model of `Value::get(key)`: member lookup, `None` on non-objects. -/
def Json.get : Json → String → Option Json
  | .obj kvs, k => (kvs.find? (fun kv => kv.1 == k)).map (·.2)
  | _, _ => none

/-- Model of `Value::as_str`. -/
def Json.asStr : Json → Option Str
  | .str s => some s
  | _ => none

/-- Model of `Value::as_i64`. -/
def Json.asInt : Json → Option Int
  | .num n => some n
  | _ => none

/-- Model of `Value::as_array`. -/
def Json.asArr : Json → Option (List Json)
  | .arr xs => some xs
  | _ => none

/-- Whether a tool result carries a top-level `error` member
(the failure convention of §7 of the spec). -/
def Json.hasErr (v : Json) : Bool := (v.get "error").isSome

namespace Policy

/-- Model of `config::PermissionMode`. -/
inductive PermissionMode where
  | default
  | acceptEdits
  | bypassPermissions
deriving DecidableEq, Repr

/-- Model of `PermissionMode::from_str` (src/config.rs). -/
def PermissionMode.fromStr (s : Str) : Option PermissionMode :=
  let t := strToLower s
  if t = "default".data then some .default
  else if t = "acceptedits".data ∨ t = "accept-edits".data ∨ t = "accept_edits".data then
    some .acceptEdits
  else if t = "bypasspermissions".data ∨ t = "bypass-permissions".data ∨
      t = "bypass_permissions".data ∨ t = "bypass".data then
    some .bypassPermissions
  else none

/-- Model of `config::PermissionsConfig`. -/
structure PermissionsConfig where
  mode : PermissionMode
  allow : List Str
  ask : List Str
  deny : List Str
deriving Repr

/-- Model of `policy::Decision`. -/
inductive Decision where
  | allow
  | deny
  | ask
deriving DecidableEq, Repr

/-- Model of `policy::ToolCategory`. -/
inductive ToolCategory where
  | readOnly
  | mutation
  | execution
deriving DecidableEq, Repr

/-- Model of `ToolCategory::from_tool_name`: the source maps `Bash`, `mcp.`-prefixed
and unknown names all to `Execution`. -/
def ToolCategory.from_tool_name (name : Str) : ToolCategory :=
  if name = "Read".data ∨ name = "Grep".data ∨ name = "Glob".data then .readOnly
  else if name = "Write".data ∨ name = "Edit".data then .mutation
  else .execution

/-- Model of `policy::DEFAULT_DENY_PATTERNS`. -/
def DEFAULT_DENY_PATTERNS : List Str := ["Bash(curl:*)".data, "Bash(wget:*)".data]

/-- Model of `policy::PolicyEngine` (the mutable config plus prompting flags). -/
structure PolicyEngine where
  config : PermissionsConfig
  print_mode : Bool
  auto_yes : Bool

/-- Model of `PolicyEngine::extract_tool_arg`. -/
def extract_tool_arg (tool : Str) (args : Json) : Option Str :=
  if tool = "Bash".data then (args.get "command").bind Json.asStr
  else if tool = "Write".data ∨ tool = "Edit".data ∨ tool = "Read".data then
    (args.get "path").bind Json.asStr
  else if tool = "Grep".data ∨ tool = "Glob".data then
    (args.get "pattern").bind Json.asStr
  else none

/-- The MCP-wildcard arm of `PolicyEngine::rule_matches`: pattern ends in
`.*`, the tool starts with `mcp.`, and the remainder after the stripped
pattern stem is empty or begins at a dot boundary. -/
def mcpWildMatch (pattern tool : Str) : Bool :=
  (['.', '*'].isSuffixOf pattern && "mcp.".data.isPrefixOf tool) &&
    match stripPre tool (pattern.take (pattern.length - 2)) with
    | some [] => true
    | some (c :: _) => c == '.'
    | none => false

/-- The parenthesised-argument arm of `PolicyEngine::rule_matches`.
Note the source's `pattern.rfind(')').unwrap_or(pattern.len())`: a missing
closing parenthesis is treated as closing at the end of the pattern. -/
def parenMatch (pattern tool : Str) (arg : Option Str) : Bool :=
  match strFindIdx '(' pattern with
  | none => false
  | some openP =>
    if pattern.take openP ≠ tool then false
    else
      let closeP := (strRfindIdx ')' pattern).getD pattern.length
      let argPat := (pattern.take closeP).drop (openP + 1)
      match arg with
      | none => false
      | some a =>
        match stripSuf argPat [':', '*'] with
        | some pre => pre.isPrefixOf a
        | none => argPat == a

/-- Model of `PolicyEngine::rule_matches` (src/policy.rs lines 105-149). -/
def rule_matches (pattern tool : Str) (arg : Option Str) : Bool :=
  if pattern = tool then true
  else if mcpWildMatch pattern tool then true
  else parenMatch pattern tool arg

/-- The mode-based default of `PolicyEngine::decide` step 5. -/
def modeDefault (mode : PermissionMode) (cat : ToolCategory) : Decision :=
  match mode with
  | .bypassPermissions => .allow
  | .acceptEdits =>
    match cat with
    | .readOnly => .allow
    | .mutation => .allow
    | .execution => .ask
  | .default =>
    match cat with
    | .readOnly => .allow
    | .mutation => .ask
    | .execution => .ask

/-- Model of `PolicyEngine::decide` (src/policy.rs lines 153-201): built-in deny,
user deny, ask, allow, then the mode-based default. `List.find?` mirrors
the first-match-wins `for` loops. -/
def decide (e : PolicyEngine) (tool : Str) (args : Json) : Decision × Option Str :=
  let arg := extract_tool_arg tool args
  match DEFAULT_DENY_PATTERNS.find? (fun p => rule_matches p tool arg) with
  | some p => (.deny, some p)
  | none =>
    match e.config.deny.find? (fun r => rule_matches r tool arg) with
    | some r => (.deny, some r)
    | none =>
      match e.config.ask.find? (fun r => rule_matches r tool arg) with
      | some r => (.ask, some r)
      | none =>
        match e.config.allow.find? (fun r => rule_matches r tool arg) with
        | some r => (.allow, some r)
        | none => (modeDefault e.config.mode (ToolCategory.from_tool_name tool), none)

/-- Model of `PolicyEngine::prompt_user`, with stdin as an oracle
(`none` models a failed `read_line`); the printing is IO-only and omitted. -/
def prompt_user (e : PolicyEngine) (stdin : Option Str) : Bool :=
  if e.print_mode && !e.auto_yes then false
  else if e.auto_yes then true
  else
    match stdin with
    | some input =>
      let t := strToLower (strTrim input)
      t = "y".data ∨ t = "yes".data
    | none => false

/-- Model of `PolicyEngine::check_permission` (src/policy.rs lines 205-226). -/
def check_permission (e : PolicyEngine) (tool : Str) (args : Json) (stdin : Option Str) :
    Bool × Decision × Option Str :=
  let dr := decide e tool args
  let allowed :=
    match dr.1 with
    | .allow => true
    | .deny => false
    | .ask => prompt_user e stdin
  (allowed, dr.1, dr.2)

end Policy

namespace ToolFilter

/-- Model of `tool_filter::tool_matches` (src/tool_filter.rs lines 18-63).
Unlike `Policy.rule_matches`, the `.*` wildcard arm applies to any tool
name, and a pattern with `(` but no `)` is rejected as malformed. -/
def tool_matches (tool pattern : Str) (arg : Option Str) : Bool :=
  if pattern = tool then true
  else if
      (match stripSuf pattern ['.', '*'] with
       | some pre =>
         match stripPre tool pre with
         | some [] => true
         | some (c :: _) => c == '.'
         | none => false
       | none => false) then true
  else
    match strFindIdx '(' pattern with
    | none => false
    | some openP =>
      if pattern.take openP ≠ tool then false
      else
        match strRfindIdx ')' pattern with
        | none => false
        | some closeP =>
          let argPat := (pattern.take closeP).drop (openP + 1)
          match arg with
          | none => false
          | some a =>
            match stripSuf argPat [':', '*'] with
            | some pre => pre.isPrefixOf a
            | none => argPat == a

/-- Model of `tool_filter::tool_matches_any_simple`. -/
def tool_matches_any_simple (tool : Str) (patterns : List Str) : Bool :=
  patterns.any (fun p => tool_matches tool p none)

end ToolFilter

namespace Subagent

open Policy

/-- Model of the `mode_order` closure inside `subagent::clamp_mode`
(src/subagent.rs lines 67-71). -/
def mode_order (m : PermissionMode) : Nat :=
  match m with
  | .default => 0
  | .acceptEdits => 1
  | .bypassPermissions => 2

/-- Model of `subagent::clamp_mode`: keep the requested mode unless it exceeds the
parent's under `Default < AcceptEdits < BypassPermissions`. -/
def clamp_mode (requested parent : PermissionMode) : PermissionMode :=
  if mode_order requested > mode_order parent then parent else requested

/-- Model of `AgentSpec::get_permission_mode` (src/config.rs line 183):
parse the spec's mode string, falling back to `Default`. -/
def get_permission_mode (s : Str) : PermissionMode :=
  (PermissionMode.fromStr s).getD .default

/-- The policy engine `run_subagent` builds (src/subagent.rs lines 156-164):
the parent's rule lists with the clamped mode, `print_mode = true`,
`auto_yes = false` (so `Ask` never prompts and resolves to denial). -/
def subagent_policy (parentConfig : PermissionsConfig) (effectiveMode : PermissionMode) :
    PolicyEngine :=
  { config := { parentConfig with mode := effectiveMode }
    print_mode := true
    auto_yes := false }

/-- Model of `subagent::is_tool_allowed` (src/subagent.rs lines 103-110). -/
def is_tool_allowed (tool_name : Str) (allowed_tools : List Str) : Bool :=
  if tool_name = "Task".data then false
  else ToolFilter.tool_matches_any_simple tool_name allowed_tools

/-- Model of `subagent::ProposedEdit`. -/
structure ProposedEdit where
  path : Str
  old_string : Str
  new_string : Str
deriving DecidableEq

/-- One tool call requested by the model inside the subagent loop. -/
structure ToolCall where
  name : Str
  args : Json

/-- The result-shaping state `run_subagent` accumulates across tool calls:
`files_referenced`, `proposed_edits`, `had_errors`, and the tool results
pushed onto the message list. -/
structure SubState where
  files_referenced : List Str
  proposed_edits : List ProposedEdit
  had_errors : Bool
  results : List Json

/-- The initial accumulation state of `run_subagent`. -/
def SubState.init : SubState := ⟨[], [], false, []⟩

/-- The `{error: {code, message}}` value synthesised for a call rejected
by the subagent's `allowed_tools` filter. -/
def toolNotAllowedResult : Json :=
  .obj [("error", .obj [("code", .str "tool_not_allowed".data),
                        ("message", .str "Tool is not allowed for this subagent".data)])]

/-- The `{error: {code: "permission_denied"}}` value synthesised when the
policy does not allow the call (src/subagent.rs lines 471-477). -/
def permissionDeniedResult (decision : Decision) : Json :=
  .obj [("error", .obj [("code", .str "permission_denied".data),
    ("message", .str (match decision with
      | .deny => "Denied by policy".data
      | _ => "User denied permission".data))])]

/-- The `find`/`replace` pairs `run_subagent` extracts from an `Edit`
call's `edits` array (src/subagent.rs lines 416-434). -/
def extractProposedEdits (args : Json) : List ProposedEdit :=
  match (args.get "path").bind Json.asStr with
  | none => []
  | some path =>
    match (args.get "edits").bind Json.asArr with
    | none => []
    | some edits =>
      edits.filterMap (fun e =>
        match (e.get "find").bind Json.asStr, (e.get "replace").bind Json.asStr with
        | some f, some r => some ⟨path, f, r⟩
        | _, _ => none)

/-- The result a filter-passing tool call produces: dispatch when the
clamped policy allows it (`exec` is the tool-execution oracle), else the
synthesised `permission_denied` error. -/
def callResult (pol : PolicyEngine) (exec : Str → Json → Json) (c : ToolCall) : Json :=
  let pcr := check_permission pol c.name c.args none
  if pcr.1 then exec c.name c.args else permissionDeniedResult pcr.2.1

/-- One iteration of the tool-call loop of `run_subagent`
(src/subagent.rs lines 367-505), restricted to the state the claims are
about. A call rejected by the `allowed_tools` filter pushes its
`tool_not_allowed` result and `continue`s, skipping both the
file/edit tracking and the error tracking. -/
def processCall (pol : PolicyEngine) (allowed_tools : List Str) (exec : Str → Json → Json)
    (st : SubState) (c : ToolCall) : SubState :=
  if ¬ is_tool_allowed c.name allowed_tools then
    { st with results := st.results ++ [toolNotAllowedResult] }
  else
    let files :=
      if c.name = "Read".data ∨ c.name = "Edit".data ∨ c.name = "Write".data then
        match (c.args.get "path").bind Json.asStr with
        | some path =>
          if st.files_referenced.contains path then st.files_referenced
          else st.files_referenced ++ [path]
        | none => st.files_referenced
      else st.files_referenced
    let edits :=
      if c.name = "Edit".data then st.proposed_edits ++ extractProposedEdits c.args
      else st.proposed_edits
    let result := callResult pol exec c
    { files_referenced := files
      proposed_edits := edits
      had_errors := st.had_errors || result.hasErr
      results := st.results ++ [result] }

/-- The whole tool-call loop as a fold over the calls the model issued. -/
def processCalls (pol : PolicyEngine) (allowed_tools : List Str) (exec : Str → Json → Json)
    (st : SubState) (calls : List ToolCall) : SubState :=
  calls.foldl (processCall pol allowed_tools exec) st

/-- The `ok` field of `SubagentResult`: `!had_errors`
(src/subagent.rs line 531). -/
def subagentOk (pol : PolicyEngine) (allowed_tools : List Str) (exec : Str → Json → Json)
    (calls : List ToolCall) : Bool :=
  !(processCalls pol allowed_tools exec SubState.init calls).had_errors

end Subagent

namespace Paths

/-- One `std::path::Component`: a parent-dir (`..`), current-dir (`.`),
or normal segment. The root-dir component is carried by `RPath.absolute`. -/
inductive Comp where
  | parent
  | cur
  | normal (s : Str)
deriving DecidableEq, Repr

/-- A Rust `Path`/`PathBuf`: an absolute flag plus its components. -/
structure RPath where
  absolute : Bool
  comps : List Comp
deriving DecidableEq, Repr

/-- Parse a path string into components, as Rust's `components()` iterator
sees it: a leading `/` makes it absolute; empty and `.` segments vanish;
`..` is kept as a parent-dir component. -/
def parsePath (s : Str) : RPath :=
  { absolute := s.headD ' ' == '/'
    comps := ((s.splitOn '/').filterMap (fun seg =>
      if seg = [] ∨ seg = ".".data then none
      else if seg = "..".data then some Comp.parent
      else some (Comp.normal seg))) }

/-- Model of `Path::join` for the relative-argument case the source reaches
(absolute arguments are rejected before `join` is called). -/
def RPath.join (a b : RPath) : RPath :=
  if b.absolute then b else ⟨a.absolute, a.comps ++ b.comps⟩

/-- Model of `Path::starts_with`: component-wise prefix with matching rootedness.
Note this is purely textual: `..` components are NOT resolved. -/
def RPath.starts_with (a b : RPath) : Bool :=
  a.absolute == b.absolute && b.comps.isPrefixOf a.comps

/-- Model of `Path::parent`: drop the last component; `None` at a root or empty path. -/
def RPath.parentDir (p : RPath) : Option RPath :=
  match p.comps with
  | [] => none
  | _ => some ⟨p.absolute, p.comps.dropLast⟩

/-- Model of `Path::file_name`: the last component when it is a normal segment. -/
def RPath.fileName (p : RPath) : Option Str :=
  match p.comps.getLast? with
  | some (Comp.normal s) => some s
  | _ => none

/-- Model of `cp.join(full.file_name().unwrap_or_default())`: joining the empty
default adds no component. -/
def RPath.joinFileName (p : RPath) (fn : Option Str) : RPath :=
  match fn with
  | some s => ⟨p.absolute, p.comps ++ [Comp.normal s]⟩
  | none => p

/-- Model of `tools::normalize_path` (src/tools/mod.rs lines 119-131): `..` pops the
last pushed component (a no-op at the front, like `PathBuf::pop` at a
root), `.` is skipped, everything else is pushed. -/
def normalize_path (p : RPath) : RPath :=
  ⟨p.absolute,
    p.comps.foldl (fun acc c =>
      match c with
      | Comp.parent => acc.dropLast
      | Comp.cur => acc
      | c => acc ++ [c]) []⟩

/-- The `path_out_of_scope` error results of `tools::validate_path`. -/
inductive PathErr where
  | absoluteNotAllowed
  | escapesRoot
deriving DecidableEq, Repr

/-- Model of `tools::validate_path` (src/tools/mod.rs lines 83-117). The filesystem's
`Path::canonicalize` is an oracle `canon` (`none` models an `Err`, e.g. a
non-existent path). Control flow mirrors the source: reject absolute
strings; canonicalise the joined path, falling back to
parent-canonicalisation plus file name, then to the joined path itself;
accept if the result starts with `root`, else accept the textually
normalized path if that starts with `root`, else reject.
`canonicalOf` is the canonicalisation cascade (lines 91-104). -/
def canonicalOf (canon : RPath → Option RPath) (full : RPath) : RPath :=
  match canon full with
  | some p => p
  | none =>
    match full.parentDir with
    | some parent =>
      match canon parent with
      | some cp => cp.joinFileName full.fileName
      | none => full
    | none => full

def validate_path (canon : RPath → Option RPath) (path : Str) (root : RPath) :
    Except PathErr RPath :=
  if path.headD ' ' == '/' then .error .absoluteNotAllowed
  else
    let full := root.join (parsePath path)
    let canonical := canonicalOf canon full
    if ¬ canonical.starts_with root then
      let norm := normalize_path full
      if ¬ norm.starts_with root then .error .escapesRoot
      else .ok norm
    else .ok canonical

end Paths

namespace EditTool

/-- The `count > 0` arm of the edit loop (src/tools/edit.rs lines 97-114):
replace up to `remaining` occurrences; when the budget is exhausted or the
needle is absent, the rest of the content is appended unchanged. -/
def replaceUpTo (find repl : Str) : Nat → Str → Str × Nat
  | 0, rest => (rest, 0)
  | remaining + 1, rest =>
    match findSub rest find with
    | none => (rest, 0)
    | some pos =>
      let r := replaceUpTo find repl remaining (rest.drop (pos + find.length))
      (rest.take pos ++ repl ++ r.1, r.2 + 1)

/-- The `count == 0` arm of the edit loop (src/tools/edit.rs lines 93-96):
`content.replace(find, replace)` together with
`content.matches(find).count()` — replace every non-overlapping occurrence
left to right. Since each replacement consumes at least one character of
the haystack (the caller guarantees `find` is non-empty), a budget of
`hay.length + 1` is never exhausted; `replaceUpTo_fuel_ample` below proves
the budget irrelevant beyond that bound. -/
def replaceAllOcc (find repl : Str) (hay : Str) : Str × Nat :=
  replaceUpTo find repl (hay.length + 1) hay



/-- One entry of the `edits` array. -/
structure EditEntry where
  find : Str
  repl : Str
  count : Int

/-- Field extraction for one edit entry (src/tools/edit.rs lines 85-87):
missing or non-string `find`/`replace` default to `""`, missing `count`
defaults to 1. -/
def entryOfJson (e : Json) : EditEntry :=
  { find := ((e.get "find").bind Json.asStr).getD []
    repl := ((e.get "replace").bind Json.asStr).getD []
    count := ((e.get "count").bind Json.asInt).getD 1 }

/-- The body of the per-edit loop: an empty `find` is skipped
(`continue`), `count == 0` replaces all, otherwise `count as usize`
(a wrapping i64-to-u64 cast) bounds the replacements. -/
def applyEntry (content : Str) (e : EditEntry) : Str × Nat :=
  if e.find = [] then (content, 0)
  else if e.count = 0 then replaceAllOcc e.find e.repl content
  else replaceUpTo e.find e.repl (e.count.emod (2 ^ 64)).toNat content

/-- The whole edit loop (src/tools/edit.rs lines 82-116): apply the
entries in order, summing `total_applied`. -/
def edit_apply (content : Str) (edits : List EditEntry) : Str × Nat :=
  edits.foldl (fun acc e =>
    let r := applyEntry acc.1 e
    (r.1, acc.2 + r.2)) (content, 0)

/-- A `{error: {code}}` result. -/
def errResult (code : String) : Json :=
  .obj [("error", .obj [("code", .str code.data)])]

/-- Model of `edit::execute` (src/tools/edit.rs lines 63-128). Filesystem access is
passed in as oracles (`canon` for canonicalisation inside `validate_path`,
`readFile` for `fs::read_to_string`, `writeOk` for whether `fs::write`
succeeds), and `hash` stands for the pure `sha256` hex digest. -/
def edit_execute (canon : Paths.RPath → Option Paths.RPath)
    (readFile : Paths.RPath → Option Str) (writeOk : Paths.RPath → Str → Bool)
    (hash : Str → Str) (args : Json) (root : Paths.RPath) : Json :=
  let path := ((args.get "path").bind Json.asStr).getD []
  match Paths.validate_path canon path root with
  | .error _ => errResult "path_out_of_scope"
  | .ok full_path =>
    match readFile full_path with
    | none => errResult "read_error"
    | some original =>
      let before_sha := hash original
      let edits := (((args.get "edits").bind Json.asArr).getD []).map entryOfJson
      let r := edit_apply original edits
      if ¬ writeOk full_path r.1 then errResult "write_error"
      else
        .obj [("path", .str path), ("applied", .num (r.2 : Int)),
              ("before_sha256", .str before_sha), ("after_sha256", .str (hash r.1))]

end EditTool

namespace PlanMode

/-- Model of `plan::PlanStatus`. -/
inductive PlanStatus where
  | draft
  | ready
  | executing
  | completed
  | failed
  | cancelled
deriving DecidableEq, Repr

/-- Model of `plan::PlanStepStatus`. -/
inductive PlanStepStatus where
  | pending
  | inProgress
  | completed
  | failed
  | skipped
deriving DecidableEq, Repr

/-- Model of `plan::PlanStep` (execution-only `output` field omitted). -/
structure PlanStep where
  number : Nat
  title : Str
  description : Str
  files : List Str
  tools : List Str
  status : PlanStepStatus
deriving DecidableEq, Repr

/-- Model of `plan::Plan`, restricted to the fields `parse_plan_output` produces
(the name and timestamps involve the wall clock and are omitted). -/
structure Plan where
  goal : Str
  summary : Str
  steps : List PlanStep
  status : PlanStatus
deriving DecidableEq, Repr

/-- The error cases of `parse_plan_output` / `extract_plan_block`. -/
inductive PlanErr where
  | noBlock
  | noSteps
  | badStepNumber
deriving DecidableEq, Repr

/-- Rust `str::lines`: split on `\n`, no trailing empty line, strip a
trailing `\r` from each line. -/
def rustLines (s : Str) : List Str :=
  if s = [] then []
  else
    let ls := s.splitOn '\n'
    let ls := if ls.getLast? = some [] then ls.dropLast else ls
    ls.map (fun l => if l.getLast? = some '\r' then l.dropLast else l)

/-- Decimal digit run to a number. -/
def digitsToNat (l : Str) : Nat :=
  l.foldl (fun n c => n * 10 + (c.toNat - '0'.toNat)) 0

/-- Case-insensitive `STEP` at the head of the string; returns the rest. -/
def ciStep : Str → Option Str
  | s :: t :: e :: p :: rest =>
    if s.toLower == 's' && t.toLower == 't' && e.toLower == 'e' && p.toLower == 'p' then
      some rest
    else none
  | _ => none

/-- The regex `(?i)STEP\s+(\d+):\s*(.+)` anchored at the head of the
string: `STEP`, whitespace, digits (capture 1), `:`, and a non-empty rest
(whose whitespace-trimmed form is what the caller keeps of capture 2). -/
def tryStepAt (cs : Str) : Option (Str × Str) :=
  (ciStep cs).bind fun r1 =>
    let ws := r1.takeWhile Char.isWhitespace
    if ws = [] then none
    else
      let r2 := r1.dropWhile Char.isWhitespace
      let digits := r2.takeWhile Char.isDigit
      if digits = [] then none
      else
        match r2.drop digits.length with
        | ':' :: rest3 => if rest3 = [] then none else some (digits, rest3)
        | _ => none

/-- Model of `Regex::captures`: leftmost match of the step pattern in the line. -/
def stepSearch : Str → Option (Str × Str)
  | [] => none
  | c :: t =>
    match tryStepAt (c :: t) with
    | some r => some r
    | none => stepSearch t

/-- Model of `FILES:` / `TOOLS:` values: split on commas, trim, drop empties. -/
def splitCommaTrim (s : Str) : List Str :=
  ((s.splitOn ',').map strTrim).filter (· ≠ [])

/-- Model of `plan::extract_field`: first line whose trimmed form starts with the
prefix, its remainder trimmed. -/
def extract_field (content pre : Str) : Option Str :=
  (rustLines content).findSome? (fun line => (stripPre (strTrim line) pre).map strTrim)

/-- Model of `plan::extract_plan_block` (src/plan.rs lines 453-472): the text
between a ` ```plan ` fence and the next ` ``` ` (or the end), trimmed;
else the whole output if it contains a `STEP 1:` marker; else an error. -/
def extract_plan_block (output : Str) : Except PlanErr Str :=
  match findSub output "```plan".data with
  | some start =>
    let contentStart := start + 7
    let endIdx :=
      match findSub (output.drop contentStart) "```".data with
      | some i => contentStart + i
      | none => output.length
    .ok (strTrim ((output.take endIdx).drop contentStart))
  | none =>
    if (findSub output "STEP 1:".data).isSome ∨ (findSub output "Step 1:".data).isSome then
      .ok output
    else .error .noBlock

/-- The line-scanning state of `parse_plan_output`. -/
structure ScanState where
  steps : List PlanStep
  current : Option PlanStep
  in_description : Bool

/-- One line of the `parse_plan_output` loop (src/plan.rs lines 397-438):
a step header pushes the previous step and opens a new one (`usize`
overflow of the step number is a parse error); within a step,
`DESCRIPTION:` / `FILES:` / `TOOLS:` populate fields and a plain
non-empty line extends an open description. -/
def scanLine (st : ScanState) (line : Str) : Except PlanErr ScanState :=
  let trimmed := strTrim line
  match stepSearch trimmed with
  | some (digits, rest) =>
    if digitsToNat digits ≥ 2 ^ 64 then .error .badStepNumber
    else
      .ok { steps := match st.current with
              | some s => st.steps ++ [s]
              | none => st.steps
            current := some ⟨digitsToNat digits, strTrim rest, [], [], [], .pending⟩
            in_description := false }
  | none =>
    match st.current with
    | none => .ok st
    | some step =>
      match stripPre trimmed "DESCRIPTION:".data with
      | some desc =>
        .ok { st with current := some { step with description := strTrim desc }
                      in_description := true }
      | none =>
        match stripPre trimmed "FILES:".data with
        | some files =>
          .ok { st with current := some { step with files := splitCommaTrim files }
                        in_description := false }
        | none =>
          match stripPre trimmed "TOOLS:".data with
          | some tools =>
            .ok { st with current := some { step with tools := splitCommaTrim tools }
                          in_description := false }
          | none =>
            if st.in_description ∧ trimmed ≠ [] then
              .ok { st with current := some { step with description :=
                      if step.description = [] then trimmed
                      else step.description ++ [' '] ++ trimmed } }
            else .ok st

/-- Model of `plan::parse_plan_output` (src/plan.rs lines 382-451): extract the
plan block, read `SUMMARY:`, scan the lines for steps, fail when no step
was found, and mark the plan `Ready`. -/
def parse_plan_output (output goal : Str) : Except PlanErr Plan := do
  let block ← extract_plan_block output
  let summary := (extract_field block "SUMMARY:".data).getD []
  let final ← (rustLines block).foldlM scanLine ⟨[], none, false⟩
  let steps :=
    match final.current with
    | some s => final.steps ++ [s]
    | none => final.steps
  if steps = [] then .error .noSteps
  else .ok { goal := goal, summary := summary, steps := steps, status := .ready }

/-- The seed plan text of §8 of the spec. -/
def seedPlanText : Str :=
  ("```plan\nSUMMARY: Add a new feature to the system\nSTEP 1: Create the module\n" ++
   "DESCRIPTION: Create a new module file with basic structure\nFILES: src/feature.rs\n" ++
   "TOOLS: Write\nSTEP 2: Add tests\nDESCRIPTION: Write unit tests for the module\n" ++
   "FILES: src/feature.rs\nTOOLS: Edit\n```").data

end PlanMode


/-! ## Sanity checks of the embedding on concrete inputs -/

theorem sanity_edit_apply_replace_all : EditTool.edit_apply "hello world hello".data
    [⟨"hello".data, "bye".data, 0⟩] = ("bye world bye".data, 2) := by decide

theorem sanity_edit_apply_count_two : EditTool.edit_apply "aaaa".data
    [⟨"a".data, "b".data, 2⟩] = ("bbaa".data, 2) := by decide

theorem sanity_edit_apply_absent : EditTool.edit_apply "abc".data
    [⟨"zzz".data, "b".data, 1⟩] = ("abc".data, 0) := by decide

theorem sanity_decide_allow_narrowed_by_ask :
    Policy.decide ⟨⟨.default, ["Bash(git:*)".data], ["Bash(git push:*)".data], []⟩,
      false, false⟩ "Bash".data (.obj [("command", .str "git diff".data)]) =
    (.allow, some "Bash(git:*)".data) := by decide

theorem sanity_mcp_dot_boundary :
    Policy.rule_matches "mcp.echo.*".data "mcp.echo.add".data none = true ∧
    Policy.rule_matches "mcp.echo.*".data "mcp.echoserver.add".data none = false := by decide

/-! ## Helper lemmas -/


/-- A boolean prefix gives a length bound. -/
theorem isPrefixOf_length_le : ∀ {l1 l2 : Str}, l1.isPrefixOf l2 = true →
    l1.length ≤ l2.length := by
  intro l1
  induction l1 with
  | nil => intro l2 _; simp
  | cons a as ih =>
    intro l2 h
    cases l2 with
    | nil => exact absurd h (by simp [List.isPrefixOf])
    | cons b bs =>
      simp only [List.isPrefixOf, Bool.and_eq_true, beq_iff_eq] at h
      have := ih h.2
      simp only [List.length_cons]
      omega

/-- A boolean prefix is an append decomposition. -/
theorem isPrefixOf_exists_append : ∀ {l1 l2 : Str}, l1.isPrefixOf l2 = true →
    ∃ rest, l2 = l1 ++ rest := by
  intro l1
  induction l1 with
  | nil => intro l2 _; exact ⟨l2, rfl⟩
  | cons a as ih =>
    intro l2 h
    cases l2 with
    | nil => exact absurd h (by simp [List.isPrefixOf])
    | cons b bs =>
      simp only [List.isPrefixOf, Bool.and_eq_true, beq_iff_eq] at h
      obtain ⟨rest, hrest⟩ := ih h.2
      exact ⟨rest, by simp [h.1, hrest]⟩

/-- A successful `findSub` leaves room for the needle in the haystack. -/
theorem findSub_le {hay needle : Str} (h : needle ≠ []) :
    ∀ {pos : Nat}, findSub hay needle = some pos → pos + needle.length ≤ hay.length := by
  induction hay with
  | nil =>
    intro pos hp
    simp [findSub, List.isEmpty_iff, h] at hp
  | cons a t ih =>
    intro pos hp
    rw [findSub] at hp
    by_cases hpre : needle.isPrefixOf (a :: t)
    · simp [hpre] at hp
      subst hp
      have := isPrefixOf_length_le hpre
      simpa using this
    · simp [hpre] at hp
      obtain ⟨p', hp', rfl⟩ := hp
      have := ih hp'
      simp only [List.length_cons]
      omega

/-- Any two replacement budgets strictly larger than the haystack length
give the same result: the loop stops by itself first. -/
theorem replaceUpTo_fuel_ample (find repl : Str) (h : find ≠ []) :
    ∀ fuel₁ hay fuel₂, hay.length < fuel₁ → hay.length < fuel₂ →
      EditTool.replaceUpTo find repl fuel₁ hay = EditTool.replaceUpTo find repl fuel₂ hay := by
  have h1 : 1 ≤ find.length := by
    cases find with
    | nil => exact absurd rfl h
    | cons c t => simp
  intro fuel₁
  induction fuel₁ with
  | zero => intro hay fuel₂ hf1 _; omega
  | succ k ih =>
    intro hay fuel₂ hf1 hf2
    cases fuel₂ with
    | zero => omega
    | succ m =>
      cases hpos : findSub hay find with
      | none => simp only [EditTool.replaceUpTo, hpos]
      | some pos =>
        have hle := findSub_le h hpos
        have hd : (hay.drop (pos + find.length)).length < k := by
          simp only [List.length_drop]; omega
        have hd' : (hay.drop (pos + find.length)).length < m := by
          simp only [List.length_drop]; omega
        simp only [EditTool.replaceUpTo, hpos]
        rw [ih (hay.drop (pos + find.length)) m hd hd']

theorem rule_matches_curl (c : Str) :
    Policy.rule_matches "Bash(curl:*)".data "Bash".data (some c) = "curl".data.isPrefixOf c := by
  rfl

theorem rule_matches_wget (c : Str) :
    Policy.rule_matches "Bash(wget:*)".data "Bash".data (some c) = "wget".data.isPrefixOf c := by
  rfl

/-! ## C6 -/

/-- C6: the spec says a rule pattern with `(` but no `)` is malformed and
never matches, and `tool_filter::tool_matches` indeed rejects it; but
`PolicyEngine::rule_matches` — its own duplicate of that logic, which
`tool_filter.rs`'s module doc says it consolidates — treats the missing
`)` as closing at the end of the pattern, so the malformed `Bash(git`
matches a `Bash` call whose command is exactly `git`. -/
theorem malformed_paren_pattern_matches_in_policy :
    Policy.rule_matches "Bash(git".data "Bash".data (some "git".data) = true ∧
    ToolFilter.tool_matches "Bash".data "Bash(git".data (some "git".data) = false := by
  decide

/-! ## C2 -/

/-- C2: for every policy configuration (any rule lists, any mode, any
prompting flags) a `Bash` call whose `command` argument starts with
`curl` or `wget` is denied by the corresponding built-in pattern before
any user rule or mode default is consulted. -/
theorem builtin_deny_inescapable (e : Policy.PolicyEngine) (args : Json) (c : Str)
    (hc : (args.get "command").bind Json.asStr = some c) :
    ("curl".data.isPrefixOf c = true →
      Policy.decide e "Bash".data args = (.deny, some "Bash(curl:*)".data)) ∧
    ("wget".data.isPrefixOf c = true →
      Policy.decide e "Bash".data args = (.deny, some "Bash(wget:*)".data)) := by
  have harg : Policy.extract_tool_arg "Bash".data args = some c := by
    simp [Policy.extract_tool_arg, hc]
  constructor
  · intro hcurl
    have h1 : Policy.rule_matches "Bash(curl:*)".data "Bash".data (some c) = true := by
      rw [rule_matches_curl]; exact hcurl
    simp [Policy.decide, harg, Policy.DEFAULT_DENY_PATTERNS, List.find?, h1]
  · intro hwget
    obtain ⟨rest, rfl⟩ : ∃ rest, c = 'w' :: 'g' :: 'e' :: 't' :: rest := by
      obtain ⟨rest, hr⟩ := isPrefixOf_exists_append hwget
      exact ⟨rest, hr⟩
    have h0 : Policy.rule_matches "Bash(curl:*)".data "Bash".data
        (some ('w' :: 'g' :: 'e' :: 't' :: rest)) = false := by
      rw [rule_matches_curl]; rfl
    have h1 : Policy.rule_matches "Bash(wget:*)".data "Bash".data
        (some ('w' :: 'g' :: 'e' :: 't' :: rest)) = true := by
      rw [rule_matches_wget]; exact hwget
    simp [Policy.decide, harg, Policy.DEFAULT_DENY_PATTERNS, List.find?, h0, h1]

/-- Witness for C2 at the spec's seed scenario: `allow=["Bash(curl:*)"]`,
mode `BypassPermissions`, command `curl https://x`. -/
theorem builtin_deny_inescapable_witness :
    Policy.decide ⟨⟨.bypassPermissions, ["Bash(curl:*)".data], [], []⟩, false, false⟩
      "Bash".data (.obj [("command", .str "curl https://x".data)]) =
      (.deny, some "Bash(curl:*)".data) :=
  (builtin_deny_inescapable ⟨⟨.bypassPermissions, ["Bash(curl:*)".data], [], []⟩, false, false⟩
    (.obj [("command", .str "curl https://x".data)]) "curl https://x".data rfl).1 (by decide)

/-! ## C3 -/

/-- C3 counterexample: with a canonicalisation oracle that fails on every
path (every involved path non-existent on disk), root `/r` and the
relative path `a/../../x` — whose `..` segments escape the root, since it
normalizes to `/x` — `validate_path` returns `Ok` instead of the
`path_out_of_scope` the claim requires. -/
theorem path_escape_accepted_counterexample :
    (Paths.validate_path (fun _ => none) "a/../../x".data
      ⟨true, [.normal "r".data]⟩).isOk = true ∧
    (Paths.normalize_path (Paths.RPath.join ⟨true, [.normal "r".data]⟩
      (Paths.parsePath "a/../../x".data))).starts_with ⟨true, [.normal "r".data]⟩ = false := by
  decide

/-- C3 amended: for every canonicalisation behaviour, every absolute path
is rejected with `path_out_of_scope`, and every path `validate_path`
accepts yields a resolved path that starts with `root` component-wise;
escape detection beyond that textual check depends on the
canonicalisation oracle. -/
theorem validate_path_containment (canon : Paths.RPath → Option Paths.RPath)
    (path : Str) (root : Paths.RPath) :
    ((path.headD ' ' == '/') = true →
      Paths.validate_path canon path root = .error .absoluteNotAllowed) ∧
    (∀ p, Paths.validate_path canon path root = .ok p → p.starts_with root = true) := by
  constructor
  · intro habs
    unfold Paths.validate_path
    rw [if_pos habs]
  · intro p hp
    unfold Paths.validate_path at hp
    by_cases habs : (path.headD ' ' == '/') = true
    · rw [if_pos habs] at hp
      simp at hp
    · rw [if_neg habs] at hp
      simp only at hp
      by_cases h1 : (Paths.canonicalOf canon (root.join (Paths.parsePath path))).starts_with
          root = true
      · rw [if_neg (not_not_intro h1)] at hp
        simp only [Except.ok.injEq] at hp
        subst hp
        exact h1
      · rw [if_pos h1] at hp
        by_cases h2 : (Paths.normalize_path (root.join (Paths.parsePath path))).starts_with
            root = true
        · rw [if_neg (not_not_intro h2)] at hp
          simp only [Except.ok.injEq] at hp
          subst hp
          exact h2
        · rw [if_pos h2] at hp
          simp at hp

/-- Witness for C3 amended: the absolute path `/etc` is rejected, and the
accepted relative path `a.txt` starts with the root. -/
theorem validate_path_containment_witness :
    Paths.validate_path (fun _ => none) "/etc".data ⟨true, [.normal "r".data]⟩ =
      .error .absoluteNotAllowed ∧
    Paths.RPath.starts_with ⟨true, [.normal "r".data, .normal "a.txt".data]⟩
      ⟨true, [.normal "r".data]⟩ = true :=
  ⟨(validate_path_containment (fun _ => none) "/etc".data ⟨true, [.normal "r".data]⟩).1
      (by decide),
   (validate_path_containment (fun _ => none) "a.txt".data ⟨true, [.normal "r".data]⟩).2
      ⟨true, [.normal "r".data, .normal "a.txt".data]⟩ (by rfl)⟩

/-! ## C1 -/

/-- C1: `PolicyEngine::decide` evaluates in strict order — `Deny` with the
matched rule when any built-in or user deny rule matches, else `Ask` when
any ask rule matches (overriding allow), else `Allow` when any allow rule
matches, else the mode-category default of §3 (whose table is pinned by
the last conjunct). -/
theorem decide_priority_order (e : Policy.PolicyEngine) (tool : Str) (args : Json) :
    ((∃ r ∈ Policy.DEFAULT_DENY_PATTERNS ++ e.config.deny,
        Policy.rule_matches r tool (Policy.extract_tool_arg tool args) = true) →
      (Policy.decide e tool args).1 = .deny ∧
      ∃ r, (Policy.decide e tool args).2 = some r ∧
        r ∈ Policy.DEFAULT_DENY_PATTERNS ++ e.config.deny ∧
        Policy.rule_matches r tool (Policy.extract_tool_arg tool args) = true) ∧
    ((∀ r ∈ Policy.DEFAULT_DENY_PATTERNS ++ e.config.deny,
        ¬ Policy.rule_matches r tool (Policy.extract_tool_arg tool args) = true) →
      (∃ r ∈ e.config.ask,
        Policy.rule_matches r tool (Policy.extract_tool_arg tool args) = true) →
      (Policy.decide e tool args).1 = .ask ∧
      ∃ r, (Policy.decide e tool args).2 = some r ∧ r ∈ e.config.ask ∧
        Policy.rule_matches r tool (Policy.extract_tool_arg tool args) = true) ∧
    ((∀ r ∈ Policy.DEFAULT_DENY_PATTERNS ++ e.config.deny,
        ¬ Policy.rule_matches r tool (Policy.extract_tool_arg tool args) = true) →
      (∀ r ∈ e.config.ask,
        ¬ Policy.rule_matches r tool (Policy.extract_tool_arg tool args) = true) →
      (∃ r ∈ e.config.allow,
        Policy.rule_matches r tool (Policy.extract_tool_arg tool args) = true) →
      (Policy.decide e tool args).1 = .allow ∧
      ∃ r, (Policy.decide e tool args).2 = some r ∧ r ∈ e.config.allow ∧
        Policy.rule_matches r tool (Policy.extract_tool_arg tool args) = true) ∧
    ((∀ r ∈ Policy.DEFAULT_DENY_PATTERNS ++ e.config.deny ++ e.config.ask ++ e.config.allow,
        ¬ Policy.rule_matches r tool (Policy.extract_tool_arg tool args) = true) →
      Policy.decide e tool args =
        (Policy.modeDefault e.config.mode (Policy.ToolCategory.from_tool_name tool), none)) ∧
    (Policy.modeDefault .default .readOnly = .allow ∧
     Policy.modeDefault .default .mutation = .ask ∧
     Policy.modeDefault .default .execution = .ask ∧
     Policy.modeDefault .acceptEdits .mutation = .allow ∧
     Policy.modeDefault .acceptEdits .execution = .ask ∧
     Policy.modeDefault .bypassPermissions .readOnly = .allow ∧
     Policy.modeDefault .bypassPermissions .mutation = .allow ∧
     Policy.modeDefault .bypassPermissions .execution = .allow) := by
  refine ⟨?_, ?_, ?_, ?_, by decide⟩
  · rintro ⟨r, hmem, hr⟩
    cases hb : Policy.DEFAULT_DENY_PATTERNS.find?
        (fun p => Policy.rule_matches p tool (Policy.extract_tool_arg tool args)) with
    | some p =>
      refine ⟨by simp [Policy.decide, hb], p, by simp [Policy.decide, hb], ?_, ?_⟩
      · exact List.mem_append_left _ (List.mem_of_find?_eq_some hb)
      · simpa using List.find?_some hb
    | none =>
      cases hd : e.config.deny.find?
          (fun p => Policy.rule_matches p tool (Policy.extract_tool_arg tool args)) with
      | some q =>
        refine ⟨by simp [Policy.decide, hb, hd], q, by simp [Policy.decide, hb, hd], ?_, ?_⟩
        · exact List.mem_append_right _ (List.mem_of_find?_eq_some hd)
        · simpa using List.find?_some hd
      | none =>
        rcases List.mem_append.mp hmem with hm | hm
        · exact absurd hr (List.find?_eq_none.mp hb r hm)
        · exact absurd hr (List.find?_eq_none.mp hd r hm)
  · intro hnone
    rintro ⟨r, hmem, hr⟩
    have hb : Policy.DEFAULT_DENY_PATTERNS.find?
        (fun p => Policy.rule_matches p tool (Policy.extract_tool_arg tool args)) = none :=
      List.find?_eq_none.mpr (fun x hx => hnone x (List.mem_append_left _ hx))
    have hd : e.config.deny.find?
        (fun p => Policy.rule_matches p tool (Policy.extract_tool_arg tool args)) = none :=
      List.find?_eq_none.mpr (fun x hx => hnone x (List.mem_append_right _ hx))
    cases ha : e.config.ask.find?
        (fun p => Policy.rule_matches p tool (Policy.extract_tool_arg tool args)) with
    | some q =>
      refine ⟨by simp [Policy.decide, hb, hd, ha], q,
        by simp [Policy.decide, hb, hd, ha], List.mem_of_find?_eq_some ha,
        by simpa using List.find?_some ha⟩
    | none =>
      exact absurd hr (List.find?_eq_none.mp ha r hmem)
  · intro hnone hask
    rintro ⟨r, hmem, hr⟩
    have hb : Policy.DEFAULT_DENY_PATTERNS.find?
        (fun p => Policy.rule_matches p tool (Policy.extract_tool_arg tool args)) = none :=
      List.find?_eq_none.mpr (fun x hx => hnone x (List.mem_append_left _ hx))
    have hd : e.config.deny.find?
        (fun p => Policy.rule_matches p tool (Policy.extract_tool_arg tool args)) = none :=
      List.find?_eq_none.mpr (fun x hx => hnone x (List.mem_append_right _ hx))
    have ha : e.config.ask.find?
        (fun p => Policy.rule_matches p tool (Policy.extract_tool_arg tool args)) = none :=
      List.find?_eq_none.mpr hask
    cases hw : e.config.allow.find?
        (fun p => Policy.rule_matches p tool (Policy.extract_tool_arg tool args)) with
    | some q =>
      refine ⟨by simp [Policy.decide, hb, hd, ha, hw], q,
        by simp [Policy.decide, hb, hd, ha, hw], List.mem_of_find?_eq_some hw,
        by simpa using List.find?_some hw⟩
    | none =>
      exact absurd hr (List.find?_eq_none.mp hw r hmem)
  · intro hnone
    have hb : Policy.DEFAULT_DENY_PATTERNS.find?
        (fun p => Policy.rule_matches p tool (Policy.extract_tool_arg tool args)) = none :=
      List.find?_eq_none.mpr (fun x hx => hnone x (by simp [hx]))
    have hd : e.config.deny.find?
        (fun p => Policy.rule_matches p tool (Policy.extract_tool_arg tool args)) = none :=
      List.find?_eq_none.mpr (fun x hx => hnone x (by simp [hx]))
    have ha : e.config.ask.find?
        (fun p => Policy.rule_matches p tool (Policy.extract_tool_arg tool args)) = none :=
      List.find?_eq_none.mpr (fun x hx => hnone x (by simp [hx]))
    have hw : e.config.allow.find?
        (fun p => Policy.rule_matches p tool (Policy.extract_tool_arg tool args)) = none :=
      List.find?_eq_none.mpr (fun x hx => hnone x (by simp [hx]))
    simp [Policy.decide, hb, hd, ha, hw]

/-- Witness for C1 at the spec's seed scenario 1:
`allow=["Bash(git:*)"]`, `ask=["Bash(git push:*)"]`, mode `Default` —
`git push origin main` matches the ask rule over the allow rule. -/
theorem decide_priority_order_witness :
    (Policy.decide ⟨⟨.default, ["Bash(git:*)".data], ["Bash(git push:*)".data], []⟩,
        false, false⟩ "Bash".data
        (.obj [("command", .str "git push origin main".data)])).1 = .ask :=
  ((decide_priority_order ⟨⟨.default, ["Bash(git:*)".data], ["Bash(git push:*)".data], []⟩,
      false, false⟩ "Bash".data
      (.obj [("command", .str "git push origin main".data)])).2.1
    (by decide) ⟨"Bash(git push:*)".data, by decide, by decide⟩).1

/-! ## C4 -/

/-- C4: the effective subagent mode is the order-minimum of the requested
and parent modes; the subagent's policy engine (built with
`print_mode = true`, `auto_yes = false`) resolves every `Ask` decision to
a denial; and in the seed scenario (parent `AcceptEdits`, spec requesting
`bypassPermissions`, empty rule lists) the effective mode is `AcceptEdits`
and a `Bash` call inside the subagent produces a tool result whose error
code is `permission_denied`. -/
theorem subagent_mode_clamp :
    (∀ requested parent,
      Subagent.mode_order (Subagent.clamp_mode requested parent) =
        min (Subagent.mode_order requested) (Subagent.mode_order parent) ∧
      (Subagent.clamp_mode requested parent = requested ∨
       Subagent.clamp_mode requested parent = parent)) ∧
    (∀ parentConfig mode tool args stdin,
      (Policy.decide (Subagent.subagent_policy parentConfig mode) tool args).1 =
          Policy.Decision.ask →
      (Policy.check_permission (Subagent.subagent_policy parentConfig mode)
          tool args stdin).1 = false) ∧
    (Subagent.clamp_mode (Subagent.get_permission_mode "bypassPermissions".data)
        .acceptEdits = .acceptEdits ∧
     (Subagent.processCall
        (Subagent.subagent_policy ⟨.acceptEdits, [], [], []⟩
          (Subagent.clamp_mode (Subagent.get_permission_mode "bypassPermissions".data)
            .acceptEdits))
        ["Bash".data] (fun _ _ => .obj []) Subagent.SubState.init
        ⟨"Bash".data, .obj [("command", .str "cargo test".data)]⟩).results.map
          (fun r => (r.get "error").bind (fun e => (e.get "code").bind Json.asStr)) =
       [some "permission_denied".data]) := by
  refine ⟨fun requested parent => ?_, fun parentConfig mode tool args stdin hask => ?_, ?_, ?_⟩
  · cases requested <;> cases parent <;> simp [Subagent.clamp_mode, Subagent.mode_order]
  · simp only [Policy.check_permission]
    rw [hask]
    rfl
  · rfl
  · rfl

/-- Witness for C4: a `Bash` call under the subagent engine built from an
empty default-mode config evaluates to `Ask` and is denied. -/
theorem subagent_mode_clamp_witness :
    (Policy.check_permission (Subagent.subagent_policy ⟨.default, [], [], []⟩ .default)
      "Bash".data (.obj [("command", .str "cargo test".data)]) none).1 = false :=
  subagent_mode_clamp.2.1 ⟨.default, [], [], []⟩ .default "Bash".data
    (.obj [("command", .str "cargo test".data)]) none (by decide)

/-! ## C5 -/

/-- Model of `had_errors` after the tool-call loop: the initial flag, or some call
that passed the `allowed_tools` filter produced a result with a top-level
`error`. Calls the filter rejects contribute nothing, because their
branch `continue`s before the error-tracking block. -/
theorem processCalls_had_errors (pol : Policy.PolicyEngine) (allowed : List Str)
    (exec : Str → Json → Json) :
    ∀ (calls : List Subagent.ToolCall) (st : Subagent.SubState),
      (Subagent.processCalls pol allowed exec st calls).had_errors =
        (st.had_errors ||
          calls.any (fun c => Subagent.is_tool_allowed c.name allowed &&
            (Subagent.callResult pol exec c).hasErr)) := by
  intro calls
  induction calls with
  | nil => intro st; simp [Subagent.processCalls]
  | cons c rest ih =>
    intro st
    simp only [Subagent.processCalls, List.foldl_cons, List.any_cons] at *
    rw [ih]
    by_cases hc : Subagent.is_tool_allowed c.name allowed = true
    · simp [Subagent.processCall, hc, Bool.or_assoc]
    · simp only [Bool.not_eq_true] at hc
      simp [Subagent.processCall, hc]

/-- C5 counterexample: with `allowed_tools = ["Read"]`, a single `Bash`
call is rejected by the filter and a `tool_not_allowed` error result is
appended to the message stream, yet `ok` is `true` — the claim's "iff"
fails because the `tool_not_allowed` branch skips the error tracking. -/
theorem subagent_ok_counterexample :
    Subagent.subagentOk (Subagent.subagent_policy ⟨.default, [], [], []⟩ .default)
      ["Read".data] (fun _ _ => .obj []) [⟨"Bash".data, .obj []⟩] = true ∧
    (Subagent.processCalls (Subagent.subagent_policy ⟨.default, [], [], []⟩ .default)
      ["Read".data] (fun _ _ => .obj []) Subagent.SubState.init
      [⟨"Bash".data, .obj []⟩]).results.map
        (fun r => (r.get "error").bind (fun e => (e.get "code").bind Json.asStr)) =
      [some "tool_not_allowed".data] := by
  constructor
  · rfl
  · rfl

/-- C5 amended: `ok` is true iff no tool call that passed the
`allowed_tools` filter produced a result containing a top-level `error`
field; results synthesized for filter-rejected calls (`tool_not_allowed`)
are appended to the message stream but do not affect `ok`. -/
theorem subagent_ok_iff (pol : Policy.PolicyEngine) (allowed : List Str)
    (exec : Str → Json → Json) (calls : List Subagent.ToolCall) :
    Subagent.subagentOk pol allowed exec calls = true ↔
      ∀ c ∈ calls, Subagent.is_tool_allowed c.name allowed = true →
        (Subagent.callResult pol exec c).hasErr = false := by
  unfold Subagent.subagentOk
  rw [processCalls_had_errors]
  simp [Subagent.SubState.init, List.any_eq_true]

/-- Witness for C5 amended, at a run whose only call is filter-rejected. -/
theorem subagent_ok_iff_witness :
    Subagent.subagentOk (Subagent.subagent_policy ⟨.default, [], [], []⟩ .default)
      ["Read".data] (fun _ _ => .obj []) [⟨"Bash".data, .obj []⟩] = true :=
  (subagent_ok_iff (Subagent.subagent_policy ⟨.default, [], [], []⟩ .default)
    ["Read".data] (fun _ _ => .obj []) [⟨"Bash".data, .obj []⟩]).mpr
    (by intro c hc hallow; simp at hc; subst hc; exact absurd hallow (by decide))

/-! ## C9 -/

/-- C9: for a tool call that passes the `allowed_tools` filter and is
named `Read`, `Edit` or `Write` with a string `path` argument, the loop
body appends the path (deduplicated) to `files_referenced` and, for
`Edit`, every `{find, replace}` pair to `proposed_edits`; both happen
before the policy check, so the accumulated output is independent of the
policy engine and of the execution outcome — denied or failed calls still
appear. -/
theorem subagent_tracks_before_policy (pol pol' : Policy.PolicyEngine)
    (allowed : List Str) (exec exec' : Str → Json → Json) (st : Subagent.SubState)
    (c : Subagent.ToolCall) (p : Str)
    (hallow : Subagent.is_tool_allowed c.name allowed = true)
    (hname : c.name = "Read".data ∨ c.name = "Edit".data ∨ c.name = "Write".data)
    (hpath : (c.args.get "path").bind Json.asStr = some p) :
    ((Subagent.processCall pol allowed exec st c).files_referenced =
      if st.files_referenced.contains p then st.files_referenced
      else st.files_referenced ++ [p]) ∧
    (c.name = "Edit".data →
      (Subagent.processCall pol allowed exec st c).proposed_edits =
        st.proposed_edits ++ Subagent.extractProposedEdits c.args) ∧
    ((Subagent.processCall pol allowed exec st c).files_referenced =
      (Subagent.processCall pol' allowed exec' st c).files_referenced ∧
     (Subagent.processCall pol allowed exec st c).proposed_edits =
      (Subagent.processCall pol' allowed exec' st c).proposed_edits) := by
  simp only [Subagent.processCall, hallow, Bool.true_eq_false, not_true_eq_false,
    if_false, hpath]
  refine ⟨?_, ?_, ?_, ?_⟩
  · simp [hname]
  · intro hedit
    simp [hedit]
  · trivial
  · trivial

/-- Witness for C9: an `Edit` call that the default-mode policy denies
still records its path and proposed edit. -/
theorem subagent_tracks_before_policy_witness :
    (Subagent.processCall (Subagent.subagent_policy ⟨.default, [], [], []⟩ .default)
      ["Edit".data] (fun _ _ => .obj []) Subagent.SubState.init
      ⟨"Edit".data, .obj [("path", .str "a.rs".data),
        ("edits", .arr [.obj [("find", .str "x".data),
                              ("replace", .str "y".data)]])]⟩).files_referenced =
      [] ++ ["a.rs".data] :=
  (subagent_tracks_before_policy
    (Subagent.subagent_policy ⟨.default, [], [], []⟩ .default)
    (Subagent.subagent_policy ⟨.default, [], [], []⟩ .default)
    ["Edit".data] (fun _ _ => .obj []) (fun _ _ => .obj []) Subagent.SubState.init
    ⟨"Edit".data, .obj [("path", .str "a.rs".data),
      ("edits", .arr [.obj [("find", .str "x".data), ("replace", .str "y".data)]])]⟩
    "a.rs".data (by decide) (by decide) rfl).1

/-! ## C7 -/

/-- If the needle of an edit entry does not occur in the content, the
entry leaves the content unchanged and applies nothing. -/
theorem applyEntry_of_not_found (content : Str) (e : EditTool.EditEntry)
    (h : findSub content e.find = none) :
    EditTool.applyEntry content e = (content, 0) := by
  have hne : e.find ≠ [] := by
    intro hf
    rw [hf] at h
    cases content <;> simp [findSub] at h
  unfold EditTool.applyEntry
  rw [if_neg hne]
  by_cases hc : e.count = 0
  · rw [if_pos hc]
    unfold EditTool.replaceAllOcc EditTool.replaceUpTo
    rw [h]
  · rw [if_neg hc]
    cases hn : (e.count.emod (2 ^ 64)).toNat with
    | zero => rfl
    | succ k =>
      unfold EditTool.replaceUpTo
      rw [h]

/-- Folding the edit loop over entries none of which occur leaves the
accumulator untouched. -/
theorem edit_apply_of_not_found (content : Str) :
    ∀ (edits : List EditTool.EditEntry) (n : Nat),
      (∀ e ∈ edits, findSub content e.find = none) →
      edits.foldl (fun acc e =>
        let r := EditTool.applyEntry acc.1 e
        (r.1, acc.2 + r.2)) (content, n) = (content, n) := by
  intro edits
  induction edits with
  | nil => intro n _; rfl
  | cons e rest ih =>
    intro n h
    have he := applyEntry_of_not_found content e (h e (by simp))
    simp only [List.foldl_cons, he]
    exact ih n (fun x hx => h x (by simp [hx]))

/-- C7: when no edit entry's `find` occurs in the file content, the Edit
tool returns a success result with `applied == 0` and
`before_sha256 == after_sha256` (the hash of the unchanged content), for
every hash function, canonicalisation behaviour and write behaviour. -/
theorem edit_identity_when_find_absent (canon : Paths.RPath → Option Paths.RPath)
    (readFile : Paths.RPath → Option Str) (writeOk : Paths.RPath → Str → Bool)
    (hash : Str → Str) (args : Json) (root : Paths.RPath)
    (content : Str) (full_path : Paths.RPath)
    (hvalid : Paths.validate_path canon (((args.get "path").bind Json.asStr).getD []) root =
      .ok full_path)
    (hread : readFile full_path = some content)
    (hwrite : writeOk full_path content = true)
    (hnf : ∀ e ∈ (((args.get "edits").bind Json.asArr).getD []).map EditTool.entryOfJson,
      findSub content e.find = none) :
    EditTool.edit_execute canon readFile writeOk hash args root =
      .obj [("path", .str (((args.get "path").bind Json.asStr).getD [])),
            ("applied", .num 0),
            ("before_sha256", .str (hash content)),
            ("after_sha256", .str (hash content))] := by
  have happly : EditTool.edit_apply content
      ((((args.get "edits").bind Json.asArr).getD []).map EditTool.entryOfJson) =
      (content, 0) :=
    edit_apply_of_not_found content _ 0 hnf
  simp only [EditTool.edit_execute, hvalid, hread, happly, hwrite,
    Bool.true_eq_false, not_true_eq_false, if_false]
  norm_num

/-- Witness for C7: a one-entry edit whose `find` is absent from
`"hello"` returns `applied = 0` with identical before/after hashes. -/
theorem edit_identity_when_find_absent_witness :
    EditTool.edit_execute (fun _ => none)
      (fun _ => some "hello".data) (fun _ _ => true) (fun s => s)
      (.obj [("path", .str "a.txt".data),
             ("edits", .arr [.obj [("find", .str "x".data), ("replace", .str "y".data)]])])
      ⟨true, [.normal "r".data]⟩ =
      .obj [("path", .str "a.txt".data), ("applied", .num 0),
            ("before_sha256", .str "hello".data), ("after_sha256", .str "hello".data)] :=
  edit_identity_when_find_absent (fun _ => none) (fun _ => some "hello".data)
    (fun _ _ => true) (fun s => s)
    (.obj [("path", .str "a.txt".data),
           ("edits", .arr [.obj [("find", .str "x".data), ("replace", .str "y".data)]])])
    ⟨true, [.normal "r".data]⟩ "hello".data
    ⟨true, [.normal "r".data, .normal "a.txt".data]⟩ (by rfl) rfl rfl
    (by decide)

/-! ## C10 -/

/-- C10: Edit execution is total — the embedding `edit_execute` is a total
function, an edit entry with an empty `find` is skipped (0 applied,
content unchanged), and each iteration of the replacement loop consumes at
least `find.length` characters of the remaining text, which is the
termination measure of the loop for every `count` value. -/
theorem edit_execution_total :
    (∀ (content repl : Str) (count : Int),
      EditTool.applyEntry content ⟨[], repl, count⟩ = (content, 0)) ∧
    (∀ (rest find : Str) (pos : Nat), find ≠ [] → findSub rest find = some pos →
      (rest.drop (pos + find.length)).length + find.length ≤ rest.length) ∧
    (∀ (args : Json) (canon : Paths.RPath → Option Paths.RPath)
        (readFile : Paths.RPath → Option Str) (writeOk : Paths.RPath → Str → Bool)
        (hash : Str → Str) (root : Paths.RPath),
      ∃ result, EditTool.edit_execute canon readFile writeOk hash args root = result) := by
  refine ⟨fun content repl count => by simp [EditTool.applyEntry], ?_,
    fun args canon readFile writeOk hash root => ⟨_, rfl⟩⟩
  intro rest find pos hne hpos
  have := findSub_le hne hpos
  simp only [List.length_drop]
  omega

/-- Witness for C10: one replacement step on `"abc"` with needle `"b"`. -/
theorem edit_execution_total_witness :
    ("abc".data.drop (1 + "b".data.length)).length + "b".data.length ≤
      "abc".data.length :=
  edit_execution_total.2.1 "abc".data "b".data 1 (by decide) (by decide)

/-! ## C8 -/

set_option maxRecDepth 400000 in
/-- C8: the seed plan text of §8 parses to summary
`Add a new feature to the system` with exactly two steps — step 1 titled
`Create the module` with files `[src/feature.rs]` and tools `[Write]`,
step 2 numbered 2 — and in general a successful parse yields a plan with
status `Ready` and at least one step (so text yielding no steps is an
error). -/
theorem parse_plan_seed_and_ready :
    (PlanMode.parse_plan_output PlanMode.seedPlanText "goal".data =
      .ok { goal := "goal".data
            summary := "Add a new feature to the system".data
            steps := [⟨1, "Create the module".data,
                        "Create a new module file with basic structure".data,
                        ["src/feature.rs".data], ["Write".data], .pending⟩,
                      ⟨2, "Add tests".data, "Write unit tests for the module".data,
                        ["src/feature.rs".data], ["Edit".data], .pending⟩]
            status := .ready }) ∧
    (∀ output goal plan, PlanMode.parse_plan_output output goal = .ok plan →
      plan.status = .ready ∧ plan.steps ≠ []) := by
  constructor
  · rfl
  · intro output goal plan hp
    simp only [PlanMode.parse_plan_output, bind, Except.bind] at hp
    split at hp
    · simp at hp
    · split at hp
      · simp at hp
      · split at hp
        · simp at hp
        · rename_i hne
          simp only [Except.ok.injEq] at hp
          subst hp
          exact ⟨rfl, hne⟩

set_option maxRecDepth 400000 in
/-- Witness for C8's universal part, at the seed text itself. -/
theorem parse_plan_seed_and_ready_witness :
    ({ goal := "goal".data
       summary := "Add a new feature to the system".data
       steps := [⟨1, "Create the module".data,
                   "Create a new module file with basic structure".data,
                   ["src/feature.rs".data], ["Write".data], .pending⟩,
                 ⟨2, "Add tests".data, "Write unit tests for the module".data,
                   ["src/feature.rs".data], ["Edit".data], .pending⟩]
       status := .ready } : PlanMode.Plan).status = .ready :=
  (parse_plan_seed_and_ready.2 PlanMode.seedPlanText "goal".data _ (by rfl)).1
